import Mathlib

/-!
Verification development for the `tsp_aco_golang` repository (src/main/main.go).

The program is an Ant Colony Optimisation solver for the Euclidean TSP.
This file gives a shallow embedding of its core:

* the distance model (`calEdge`, `initGraph`) is embedded over `ℝ`,
  with `math.Pow(x, 2)` rendered as `x ^ 2` and `math.Pow(r, 0.5)` as
  `Real.sqrt r` (the radicand is a sum of squares, hence nonnegative,
  where the two agree);
* the simulation engine (pheromone store, agent tour construction,
  colony rounds, experiments) is embedded over `ℚ`.  Go's `float64`
  values are modelled as exact rationals; `math.Pow` applied with the
  fractional exponents `alpha`/`beta` is not exactly representable over
  `ℚ` and is kept as an abstract function parameter `powf` in the
  configuration; `math/rand` is modelled by oracle streams of values
  supplied in the `Rng` state, consumed in exactly the order the source
  draws them.  Division by zero in `ℚ` yields 0 (the IEEE-754 `Inf`/`NaN`
  behaviour of the source at a zero denominator is outside this
  embedding and is discussed where relevant);
* the unbounded candidate scan of `goToNewCity` is given a fuel bound;
  exhausting the fuel returns `none`, modelling the source's
  non-termination on that scan.

Mutable global state (`tauMatrix`, `ants`, `besttour`, the statistics
arrays) is passed explicitly.  Matrices are modelled as total functions
`ℕ → ℕ → ℚ`; the source only ever touches indices below `numCities`.
-/

namespace TspAco

/-! ### Distance model (source: `city`, `calEdge`, `initGraph`) -/

/-- A city: immutable 2-D coordinate, source struct `city{x, y float64}`. -/
structure city where
  x : ℝ
  y : ℝ

/-- Source `calEdge(c1, c2 city) float64`:
`math.Pow(math.Pow(c2.y-c1.y, 2) + math.Pow(c2.y-c1.y, 2), 0.5)`.
Note the source adds the squared *y*-difference to itself; the
x-coordinates are never read. -/
noncomputable def calEdge (c1 c2 : city) : ℝ :=
  Real.sqrt ((c2.y - c1.y) ^ 2 + (c2.y - c1.y) ^ 2)

/-- Modelled from the spec: the Euclidean distance formula of spec §4.1,
`sqrt((x_i-x_j)^2 + (y_i-y_j)^2)`, which the spec declares to be the
intended behaviour of the distance model.  Used only to compare the
source's `calEdge` against the specified formula. -/
noncomputable def euclideanDist (c1 c2 : city) : ℝ :=
  Real.sqrt ((c2.x - c1.x) ^ 2 + (c2.y - c1.y) ^ 2)

/-- Source `initGraph`: `adjMatrix[i][j] = calEdge(cities[i], cities[j])`
for all `i j < numCities = len(cities)`.  Embedded as the total function
on indices; the source only reads entries with both indices in range. -/
noncomputable def initGraph (cs : List city) (i j : ℕ) : ℝ :=
  calEdge (cs.getD i ⟨0, 0⟩) (cs.getD j ⟨0, 0⟩)

/-! ### Configuration (source: the global `var` block)

`rho`, `qval`, `alpha`, `beta`, `numAnts`, `times`, `tours` are the
source's configuration globals with their source values; the spec (§3,
§6) treats all of them as configuration constants, so the engine below
is parameterised over a `Config` record carrying them. -/

/-- Source `var rho = 0.6`. -/
def rho : ℚ := 0.6

/-- Source `var qval = 1.0`. -/
def qval : ℚ := 1.0

/-- Source `var alpha = 0.8`. -/
def alpha : ℚ := 0.8

/-- Source `var beta = 0.8`. -/
def beta : ℚ := 0.8

/-- Source `var numAnts = 10`. -/
def numAnts : ℕ := 10

/-- Source `var times = 10` (number of independent experiments). -/
def times : ℕ := 10

/-- Source `var tours = 500` (rounds per experiment). -/
def tours : ℕ := 500

/-- Configuration record: the source's globals, plus `powf` standing for
`math.Pow` (its fractional-exponent uses are not representable over `ℚ`)
and `fuel`, a bound on the source's unbounded selection scan. -/
structure Config where
  numCities : ℕ
  numAnts : ℕ
  times : ℕ
  tours : ℕ
  rho : ℚ
  qval : ℚ
  alpha : ℚ
  beta : ℚ
  powf : ℚ → ℚ → ℚ
  fuel : ℕ

/-- The source's configuration values with a given city count, `math.Pow`
stand-in and scan fuel. -/
def defaultConfig (n : ℕ) (p : ℚ → ℚ → ℚ) (fuel : ℕ) : Config :=
  ⟨n, numAnts, times, tours, rho, qval, alpha, beta, p, fuel⟩

/-! ### Random source (source: `math/rand`)

`rand.Intn` and `rand.Float64` are modelled by two oracle streams with
cursors; each draw consumes the next stream element.  `rand.Intn n`
returns a value in `[0, n)`, modelled by reducing the stream value
mod `n`; `rand.Float64` returns the next float-stream value. -/

structure Rng where
  intSeq : ℕ → ℕ
  floatSeq : ℕ → ℚ
  ii : ℕ
  fi : ℕ

/-- One `rand.Intn n` draw. -/
def Rng.nextInt (r : Rng) (n : ℕ) : ℕ × Rng :=
  (r.intSeq r.ii % n, { r with ii := r.ii + 1 })

/-- One `rand.Float64()` draw. -/
def Rng.nextFloat (r : Rng) : ℚ × Rng :=
  (r.floatSeq r.fi, { r with fi := r.fi + 1 })

/-! ### Ants (source: `ant_t`, `initAnts`) -/

/-- Source struct `ant_t`.  `tabulist []int` becomes a total function
(the source array is zero-initialised and only indices below
`numCities` are touched); `tour []int` with its write cursor `tourIndex`
becomes a list built by appending, so `tourIndex = tour.length`. -/
structure ant_t where
  tabulist : ℕ → ℕ
  currentCity : ℕ
  nextCity : ℕ
  tour : List ℕ
  tourlength : ℚ

/-- One freshly initialised ant with starting city `s`
(source `initAnts` loop body: zero tabu list, random current city,
`nextCity = 0`, empty tour, zero tour length). -/
def initAnt (s : ℕ) : ant_t :=
  { tabulist := fun _ => 0
    currentCity := s
    nextCity := 0
    tour := []
    tourlength := 0 }

/-- Source `initAnts`: build `k` fresh ants, drawing one
`rand.Intn(numCities)` starting city per ant, in order. -/
def initAnts (cfg : Config) : ℕ → Rng → List ant_t × Rng
  | 0, rng => ([], rng)
  | k + 1, rng =>
    let p := rng.nextInt cfg.numCities
    let rest := initAnts cfg k p.2
    (initAnt p.1 :: rest.1, rest.2)

/-! ### Pheromone store (source: `tauMatrix`, `initTrail`,
`evaporatePheromone`, `intensifyTrail`) -/

/-- Pheromone / adjacency matrices as total functions on indices. -/
abbrev Tau : Type := ℕ → ℕ → ℚ

/-- Point update of a matrix. -/
def updTau (m : Tau) (i j : ℕ) (v : ℚ) : Tau :=
  fun a b => if a = i ∧ b = j then v else m a b

/-- Source `initTrail`: base pheromone 1.0 off the diagonal, 0 on the
diagonal, for all indices below `n`; out-of-range entries (absent in the
source's `n×n` slice) are 0. -/
def initTrail (n : ℕ) : Tau :=
  fun i j => if i < n ∧ j < n then (if i = j then 0 else 1) else 0

/-- Source `evaporatePheromone`: every in-range entry is multiplied by
`(1 - rho)`; an entry is reset to 1.0 only when the decayed value is
strictly negative (`if tauMatrix[from][to] < 0.0`).  Each entry is
updated independently, so the in-place loop equals this pointwise map. -/
def evaporatePheromone (n : ℕ) (rho : ℚ) (tau : Tau) : Tau :=
  fun i j =>
    if i < n ∧ j < n then
      (if tau i j * (1 - rho) < 0 then 1 else tau i j * (1 - rho))
    else tau i j

/-- Inner loop body of source `intensifyTrail` for one ant: for each
`c < numCities`, with `from = tour[c]`, `to = tour[(c+1) % numCities]`
and `deltatau = qval / tourlength`, performs
`tau[from][to] += deltatau; tau[to][from] = tau[from][to]`
(the second write copies the freshly updated value). -/
def intensifyOne (cfg : Config) (tau : Tau) (a : ant_t) : Tau :=
  (List.range cfg.numCities).foldl
    (fun t c =>
      let frm := a.tour.getD c 0
      let dst := a.tour.getD ((c + 1) % cfg.numCities) 0
      let t1 := updTau t frm dst (t frm dst + cfg.qval / a.tourlength)
      updTau t1 dst frm (t1 frm dst))
    tau

/-- Source `intensifyTrail`: the per-ant update applied to every ant in
sequence. -/
def intensifyTrail (cfg : Config) (tau : Tau) (ants : List ant_t) : Tau :=
  ants.foldl (intensifyOne cfg) tau

/-! ### Agent tour construction (source: `goToNewCity`, `moveAnts`) -/

/-- The desirability score of the edge `frm → dst`, source expression
`math.Pow(tauMatrix[from][to], alpha) * math.Pow(1.0/adjMatrix[from][to], beta)`. -/
def desir (cfg : Config) (tau adj : Tau) (frm dst : ℕ) : ℚ :=
  cfg.powf (tau frm dst) cfg.alpha * cfg.powf (1 / adj frm dst) cfg.beta

/-- The normalising denominator of source `goToNewCity`: the sum of
scores over every `dst < numCities` with `frm ≠ dst`, `tabulist[dst] == 0`,
`tauMatrix[frm][dst] ≠ 0` and `adjMatrix[frm][dst] ≠ 0`. -/
def denomOf (cfg : Config) (tau adj : Tau) (tabu : ℕ → ℕ) (frm : ℕ) : ℚ :=
  (List.range cfg.numCities).foldl
    (fun d dst =>
      if frm ≠ dst ∧ tabu dst = 0 ∧ tau frm dst ≠ 0 ∧ adj frm dst ≠ 0 then
        d + desir cfg tau adj frm dst
      else d)
    0

/-- The unbounded acceptance scan of source `goToNewCity`: starting at
candidate `dst = 0` and cycling through indices mod `numCities`, skip the
current city (no draw) and tabu cities (no draw); for any other candidate
draw `r = rand.Float64()` and accept the candidate when
`r < score/denom`.  The source loops forever until an acceptance; `fuel`
bounds the scan here, `none` modelling a scan that never accepts. -/
def selectScan (cfg : Config) (tau adj : Tau) (tabu : ℕ → ℕ) (frm : ℕ)
    (dnm : ℚ) : ℕ → ℕ → Rng → Option (ℕ × Rng)
  | 0, _, _ => none
  | fuel + 1, dst, rng =>
    if frm = dst then
      selectScan cfg tau adj tabu frm dnm fuel ((dst + 1) % cfg.numCities) rng
    else if tabu dst = 0 then
      let p := rng.nextFloat
      if p.1 < desir cfg tau adj frm dst / dnm then some (dst, p.2)
      else selectScan cfg tau adj tabu frm dnm fuel ((dst + 1) % cfg.numCities) p.2
    else
      selectScan cfg tau adj tabu frm dnm fuel ((dst + 1) % cfg.numCities) rng

/-- Source `goToNewCity`: compute the denominator, run the acceptance
scan, then mark the selected city in the tabu list, append it to the
tour, add the edge cost `adjMatrix[currentCity][nextCity]` to the tour
length, add the closing edge `adjMatrix[tour[numCities-1]][tour[0]]`
when the tour has just reached `numCities` entries, and move to the
selected city. -/
def goToNewCity (cfg : Config) (tau adj : Tau) (a : ant_t) (rng : Rng) :
    Option (ant_t × Rng) :=
  let dnm := denomOf cfg tau adj a.tabulist a.currentCity
  match selectScan cfg tau adj a.tabulist a.currentCity dnm cfg.fuel 0 rng with
  | none => none
  | some (dst, rng') =>
    let tour' := a.tour ++ [dst]
    let len1 := a.tourlength + adj a.currentCity dst
    let len2 :=
      if tour'.length = cfg.numCities then len1 + adj dst (tour'.headD 0)
      else len1
    some
      ({ tabulist := fun c => if c = dst then 1 else a.tabulist c
         currentCity := dst
         nextCity := dst
         tour := tour'
         tourlength := len2 }, rng')

/-- `k` successive `goToNewCity` steps of one ant (source `moveAnts`
inner loop; the source runs it `numCities` times per ant). -/
def antRun (cfg : Config) (tau adj : Tau) : ℕ → ant_t → Rng → Option (ant_t × Rng)
  | 0, a, rng => some (a, rng)
  | k + 1, a, rng =>
    match goToNewCity cfg tau adj a rng with
    | none => none
    | some (a', rng') => antRun cfg tau adj k a' rng'

/-- Source `moveAnts`: every ant, in order, performs `numCities`
`goToNewCity` steps; the pheromone matrix is read-only throughout. -/
def moveAnts (cfg : Config) (tau adj : Tau) : List ant_t → Rng → Option (List ant_t × Rng)
  | [], rng => some ([], rng)
  | a :: rest, rng =>
    match antRun cfg tau adj cfg.numCities a rng with
    | none => none
    | some (a', rng') =>
      match moveAnts cfg tau adj rest rng' with
      | none => none
      | some (rest', rng'') => some (a' :: rest', rng'')

/-! ### Round statistics (source: `calculateAvg`, `calculateBest`) -/

/-- Source `calculateAvg`: sums every ant's `tourlength`, then divides by
`float64(times)` — the experiments-count global, not the number of ants.
(The source's initial `avglength = ants[0].tourlength` is dead: it is
overwritten before being read.) -/
def calculateAvg (cfg : Config) (ants : List ant_t) : ℚ :=
  (ants.foldl (fun total a => total + a.tourlength) 0) / (cfg.times : ℚ)

/-- The persistent best-tour state of an experiment: source global
`besttour []int` (`none` models `nil`).  `ghostLen` is bookkeeping that
is not in the source: the as-constructed `tourlength` of the ant
`besttour` was last copied from (used only to state properties). -/
structure BestState where
  besttour : Option (List ℕ)
  ghostLen : ℚ

/-- Source `calculateBest`: `bestlength` restarts at `ants[0].tourlength`
every call; `besttour` is seeded from `ants[0]` only when it is `nil`,
and is overwritten whenever an ant of this round beats the running
`bestlength` of this call.  Returns the round's `bestlength` and the
updated `besttour` state. -/
def calculateBest (ants : List ant_t) (bs : BestState) : ℚ × BestState :=
  match ants with
  | [] => (0, bs)
  | a0 :: _ =>
    let bs0 : BestState :=
      match bs.besttour with
      | none => { besttour := some a0.tour, ghostLen := a0.tourlength }
      | some _ => bs
    ants.foldl
      (fun st a =>
        if a.tourlength < st.1 then
          (a.tourlength, { besttour := some a.tour, ghostLen := a.tourlength })
        else st)
      (a0.tourlength, bs0)

/-! ### Experiments (source: `main`) -/

/-- The running state of one experiment: pheromone matrix, random
source, persistent best-tour state, and the two per-experiment
accumulators `besttourlens[i]` / `avgtourlens[i]`.  `allLens` is
bookkeeping not in the source: the `tourlength` of every tour
constructed so far in this experiment (used only to state properties). -/
structure ExpState where
  tau : Tau
  rng : Rng
  best : BestState
  sumBest : ℚ
  sumAvg : ℚ
  allLens : List ℚ

/-- One iteration of the source's inner (`iterations < tours`) loop:
`initAnts(); moveAnts(); intensifyTrail();
besttourlens[i] += calculateBest(); avgtourlens[i] += calculateAvg()`. -/
def colonyRound (cfg : Config) (adj : Tau) (s : ExpState) : Option ExpState :=
  let ar := initAnts cfg cfg.numAnts s.rng
  match moveAnts cfg s.tau adj ar.1 ar.2 with
  | none => none
  | some (ants', rng') =>
    let tau' := intensifyTrail cfg s.tau ants'
    let cb := calculateBest ants' s.best
    some
      { tau := tau'
        rng := rng'
        best := cb.2
        sumBest := s.sumBest + cb.1
        sumAvg := s.sumAvg + calculateAvg cfg ants'
        allLens := s.allLens ++ ants'.map ant_t.tourlength }

/-- `k` colony rounds in sequence. -/
def roundsLoop (cfg : Config) (adj : Tau) : ℕ → ExpState → Option ExpState
  | 0, s => some s
  | k + 1, s =>
    match colonyRound cfg adj s with
    | none => none
    | some s' => roundsLoop cfg adj k s'

/-- One iteration of the source's outer (`i < times`) loop: reset
`besttour = nil` and the two accumulators, run `tours` rounds, then
`evaporatePheromone()` once. -/
def experiment (cfg : Config) (adj : Tau) (tau : Tau) (rng : Rng) : Option ExpState :=
  match roundsLoop cfg adj cfg.tours
      { tau := tau, rng := rng, best := ⟨none, 0⟩,
        sumBest := 0, sumAvg := 0, allLens := [] } with
  | none => none
  | some s => some { s with tau := evaporatePheromone cfg.numCities cfg.rho s.tau }

/-- The pheromone matrix and random source at the *start* of experiment
`e` of a run.  Source `main` calls `initTrail()` once, before the `times`
loop; each later experiment starts from whatever the previous experiment
left in `tauMatrix`. -/
def expStart (cfg : Config) (adj : Tau) (rng0 : Rng) : ℕ → Option (Tau × Rng)
  | 0 => some (initTrail cfg.numCities, rng0)
  | e + 1 =>
    match expStart cfg adj rng0 e with
    | none => none
    | some (tau, rng) =>
      match experiment cfg adj tau rng with
      | none => none
      | some s => some (s.tau, s.rng)

/-! ### Pheromone-lifecycle operations (for the matrix invariant) -/

/-- A pheromone-store mutation: one `evaporatePheromone()` call or one
`intensifyTrail()` call over a given ant population. -/
inductive PherOp where
  | evap : PherOp
  | intens : List ant_t → PherOp

/-- The ant population an operation reads (empty for evaporation). -/
def opAnts : PherOp → List ant_t
  | PherOp.evap => []
  | PherOp.intens ants => ants

/-- Apply one pheromone-store operation. -/
def applyOp (cfg : Config) (tau : Tau) : PherOp → Tau
  | PherOp.evap => evaporatePheromone cfg.numCities cfg.rho tau
  | PherOp.intens ants => intensifyTrail cfg tau ants

/-- Apply a finite sequence of pheromone-store operations in order. -/
def applyOps (cfg : Config) (ops : List PherOp) (tau : Tau) : Tau :=
  ops.foldl (applyOp cfg) tau

/-- The pheromone-matrix invariant of spec §8: in-range entries are
never negative, and off-diagonal in-range entries are strictly
positive. -/
def PherInv (n : ℕ) (tau : Tau) : Prop :=
  ∀ i j, i < n → j < n → 0 ≤ tau i j ∧ (i ≠ j → 0 < tau i j)

/-! ### Specification-side tour accounting -/

/-- Sum of the edge costs between consecutive entries of a tour
sequence. -/
def consecSum (adj : Tau) : List ℕ → ℚ
  | [] => 0
  | [_] => 0
  | a :: b :: rest => adj a b + consecSum adj (b :: rest)

/-- The tour length the embedded code actually accumulates for a
completed tour `t` of an ant that started at city `s` over `n` cities:
the edge from the start city to the first selected city, plus the
consecutive edges of the tour, plus (once the tour is complete) the
closing edge from the last tour entry back to the first. -/
def lenSpec (adj : Tau) (s : ℕ) (n : ℕ) (t : List ℕ) : ℚ :=
  match t with
  | [] => 0
  | h :: _ =>
    adj s h + consecSum adj t +
      (if t.length = n then adj (t.getLastD 0) h else 0)

/-- The per-step construction invariant of one ant after `k`
`goToNewCity` steps from starting city `s`: the tour has `k` distinct
in-range entries, the tabu list is exactly the tour's indicator
function, the current city is the last tour entry (the start city
before any step), and the accumulated tour length is `lenSpec`. -/
structure AntInv (n : ℕ) (adj : Tau) (s : ℕ) (k : ℕ) (a : ant_t) : Prop where
  len_eq : a.tour.length = k
  nodup : a.tour.Nodup
  mem_lt : ∀ c ∈ a.tour, c < n
  tabu_eq : ∀ c, a.tabulist c = if c ∈ a.tour then 1 else 0
  curr_eq : a.currentCity = a.tour.getLastD s
  tl_eq : a.tourlength = lenSpec adj s n a.tour

/-! ### Concrete instances used to settle the claims -/

/-- Two-city configuration: `math.Pow` instantiated as the monomial
`fun x _ => x` (exponent 1), ample scan fuel. -/
def c1Cfg : Config := ⟨2, 1, 2, 1, rho, qval, alpha, beta, fun x _ => x, 10⟩

/-- Unit-cost symmetric adjacency on distinct indices. -/
def c1Adj : Tau := fun i j => if i = j then 0 else 1

/-- Oracle: every `rand.Intn` draw is 0, every `rand.Float64` draw is 0
(so every candidate with positive acceptance probability is accepted
immediately). -/
def c1Rng : Rng := ⟨fun _ => 0, fun _ => 0, 0, 0⟩

/-- Three-city configuration for the best-tour bookkeeping: one ant per
round, two rounds per experiment. -/
def c6Cfg : Config := ⟨3, 1, 10, 2, rho, qval, alpha, beta, fun x _ => x, 10⟩

/-- Triangle with side costs `d(0,1) = 1`, `d(1,2) = 2`, `d(0,2) = 3`. -/
def c6Adj : Tau := fun i j =>
  if i = j then 0
  else if (i = 0 ∧ j = 1) ∨ (i = 1 ∧ j = 0) then 1
  else if (i = 1 ∧ j = 2) ∨ (i = 2 ∧ j = 1) then 2
  else 3

/-- Oracle steering the three-city run: the first `rand.Float64` draw is
3/4 (one rejection), all other draws are 0; every start city is 0. -/
def c6Rng : Rng := ⟨fun _ => 0, fun k => if k = 0 then 3/4 else 0, 0, 0⟩

/-- Configuration whose experiment count (2) differs from its population
size (1). -/
def c7Cfg : Config := ⟨2, 1, 2, 1, rho, qval, alpha, beta, fun x _ => x, 10⟩

/-- A single completed ant with tour length 4. -/
def c7Ant : ant_t := ⟨fun _ => 0, 0, 0, [1, 0], 4⟩

/-- A completed two-city ant with tour length 2 (for the invariant
witness). -/
def c8Ant : ant_t := ⟨fun _ => 0, 0, 0, [0, 1], 2⟩

/-- Configuration used for the zero-denominator analysis, as a function
of the `math.Pow` stand-in: three cities, otherwise the source's
configuration values. -/
def c2Cfg (p : ℚ → ℚ → ℚ) : Config := defaultConfig 3 p 10

end TspAco

namespace TspAco

/-! ### Generic helper lemmas -/

/-- Folding `+ tourlength` equals adding the sum of tour lengths. -/
theorem foldl_add_tourlength (l : List ant_t) (c : ℚ) :
    l.foldl (fun total a => total + a.tourlength) c = c + (l.map ant_t.tourlength).sum := by
  induction l generalizing c with
  | nil => simp
  | cons a l ih => simp [ih]; ring

/-! ### Claims C10 and C4: the distance model -/

/-- C10: for any list of city coordinates, the cost matrix built by
`initGraph` is symmetric and every diagonal entry is exactly 0. -/
theorem c10_cost_matrix_symm_zero_diag (cs : List city) (i j : ℕ) :
    initGraph cs i j = initGraph cs j i ∧ initGraph cs i i = 0 := by
  constructor
  · unfold initGraph calEdge
    congr 1
    ring
  · unfold initGraph calEdge
    simp

/-- C4: the cost-matrix entry is *not* the two-coordinate Euclidean
distance: for cities (0,0) and (1,0) the source's `calEdge` yields 0
(it uses the y-difference twice and never reads x), while the
spec-mandated Euclidean formula yields 1. -/
theorem c4_calEdge_ignores_x :
    calEdge ⟨0, 0⟩ ⟨1, 0⟩ = 0 ∧ euclideanDist ⟨0, 0⟩ ⟨1, 0⟩ = 1 ∧ (0 : ℝ) ≠ 1 := by
  refine ⟨?_, ?_, by norm_num⟩
  · simp [calEdge]
  · simp [euclideanDist]

/-! ### Claim C5: full evaporation -/

/-- C5 (amended): with `rho = 1.0`, one evaporation call sets every
in-range pheromone entry to 0 — not to the base value: the source's
clamp condition is strictly-negative (`< 0.0`), which a zero decayed
value does not satisfy. -/
theorem c5_full_evaporation_zeroes (n : ℕ) (tau : Tau) (i j : ℕ) :
    evaporatePheromone n 1 tau i j = if i < n ∧ j < n then 0 else tau i j := by
  unfold evaporatePheromone
  by_cases h : i < n ∧ j < n <;> simp [h]

/-- C5 counterexample: on a freshly initialised two-city store, one
`rho = 1.0` evaporation leaves entry (0,1) at 0, not at the base value
1.0 the claim requires. -/
theorem c5_counterexample :
    evaporatePheromone 2 1 (initTrail 2) 0 1 = 0 ∧ (0 : ℚ) ≠ 1 := by
  constructor
  · norm_num [evaporatePheromone, initTrail]
  · norm_num

/-! ### Claim C7: the round mean -/

/-- C7 (amended): the mean tour length recorded for a round is the sum
of the agents' tour lengths divided by the configured experiment count
`times` — not by the population size; the two coincide under the
source's defaults (both 10). -/
theorem c7_calculateAvg_divides_by_times (cfg : Config) (ants : List ant_t) :
    calculateAvg cfg ants = (ants.map ant_t.tourlength).sum / (cfg.times : ℚ) := by
  unfold calculateAvg
  rw [foldl_add_tourlength]
  ring

/-- C7 counterexample: with experiment count 2 and a single-agent round
of tour length 4, the recorded mean is 2, while the sum divided by the
population size (1 agent) is 4. -/
theorem c7_counterexample :
    calculateAvg c7Cfg [c7Ant] = 2 ∧
    ([c7Ant].map ant_t.tourlength).sum / (([c7Ant] : List ant_t).length : ℚ) = 4 ∧
    (2 : ℚ) ≠ 4 := by
  refine ⟨?_, ?_, by norm_num⟩
  · norm_num [calculateAvg, c7Cfg, c7Ant]
  · norm_num [c7Ant]

/-! ### Claim C2: the zero-denominator edge case -/

/-- C2: the degenerate selection state `Z = 0` is reachable: with three
cities whose pairwise adjacency entries are all 0 (as produced by the
source's y-only distance formula on cities sharing a y-coordinate) and a
fresh pheromone store, the normalising denominator computed by
`goToNewCity` is 0, for every interpretation of `math.Pow` — and
`goToNewCity` contains no guard for this case. -/
theorem c2_zero_denominator_reachable (p : ℚ → ℚ → ℚ) :
    denomOf (c2Cfg p) (initTrail 3) (fun _ _ => 0) (fun _ => 0) 0 = 0 := by
  norm_num [denomOf, c2Cfg, defaultConfig, initTrail, List.range_succ]

/-! ### Claim C1: pheromone freshness across experiments -/

/-- C1 (amended): the pheromone store is freshly seeded only once, ahead
of the *first* experiment: at the start of experiment 0, every in-range
off-diagonal entry is 1 and every diagonal entry is 0. -/
theorem c1_first_experiment_starts_fresh (cfg : Config) (adj : Tau) (rng0 : Rng)
    (tau : Tau) (rng : Rng) (h : expStart cfg adj rng0 0 = some (tau, rng))
    (i j : ℕ) (hi : i < cfg.numCities) (hj : j < cfg.numCities) :
    (i ≠ j → tau i j = 1) ∧ tau i i = 0 := by
  simp only [expStart, Option.some.injEq, Prod.mk.injEq] at h
  obtain ⟨htau, -⟩ := h
  subst htau
  constructor
  · intro hne
    simp [initTrail, hi, hj, hne]
  · simp [initTrail]

/-- C1 witness: the amended theorem applied to the concrete two-city
run at experiment 0, entries (0,1) and (0,0). -/
theorem c1_witness :
    ((0 : ℕ) ≠ 1 → initTrail c1Cfg.numCities 0 1 = 1) ∧ initTrail c1Cfg.numCities 0 0 = 0 :=
  c1_first_experiment_starts_fresh c1Cfg c1Adj c1Rng (initTrail c1Cfg.numCities) c1Rng
    (by simp [expStart]) 0 1 (by norm_num [c1Cfg]) (by norm_num [c1Cfg])

end TspAco

namespace TspAco

/-- C1 counterexample: in a concrete two-city run with two configured
experiments, experiment 1 does *not* begin with a fresh store — its
(0,1) pheromone entry is 2/3 (the previous experiment's intensified,
once-evaporated value), not the base value 1. -/
theorem c1_counterexample :
    (expStart c1Cfg c1Adj c1Rng 1).map (fun p => p.1 0 1) = some (2/3) ∧
    (2/3 : ℚ) ≠ 1 ∧ 1 < c1Cfg.times := by
  refine ⟨?_, by norm_num, by norm_num [c1Cfg]⟩
  norm_num [expStart, experiment, roundsLoop, colonyRound, initAnts, moveAnts, antRun,
    goToNewCity, selectScan, denomOf, desir, intensifyTrail, intensifyOne,
    evaporatePheromone, calculateBest, calculateAvg, initTrail, updTau, initAnt,
    c1Cfg, c1Adj, c1Rng, Rng.nextInt, Rng.nextFloat, rho, qval, alpha, beta,
    List.range_succ]

/-- C3 counterexample: a completed two-city tour whose accumulated
length is 3 (it includes the edge from the random start city 0 to the
first selected city), while the sum of consecutive edge costs of the
tour [1,0] plus the closing edge is 2. -/
theorem c3_counterexample :
    (antRun c1Cfg (initTrail 2) c1Adj c1Cfg.numCities (initAnt 0) c1Rng).map
        (fun p => (p.1.tour, p.1.tourlength)) = some ([1, 0], 3) ∧
    consecSum c1Adj [1, 0] + c1Adj 0 1 = 2 ∧ (3 : ℚ) ≠ 2 := by
  refine ⟨?_, ?_, by norm_num⟩
  · norm_num [antRun, goToNewCity, selectScan, denomOf, desir, initTrail, initAnt,
      c1Cfg, c1Adj, c1Rng, Rng.nextFloat, rho, qval, alpha, beta, List.range_succ]
  · norm_num [consecSum, c1Adj]

/-- C6 counterexample: a concrete two-round experiment whose reported
best tour is the round-0 tour [2,0,1] of as-constructed length 9, even
though round 1 constructed a tour of length 7: `calculateBest` restarts
its comparison baseline at `ants[0].tourlength` every round, so the
persistent `besttour` is never compared against earlier rounds. -/
theorem c6_counterexample :
    (experiment c6Cfg c6Adj (initTrail 3) c6Rng).map
        (fun s => (s.best.ghostLen, s.best.besttour, s.allLens)) =
      some (9, some [2, 0, 1], [9, 7]) ∧
    ¬((9 : ℚ) ≤ 7) := by
  refine ⟨?_, by norm_num⟩
  norm_num [experiment, roundsLoop, colonyRound, initAnts, moveAnts, antRun,
    goToNewCity, selectScan, denomOf, desir, intensifyTrail, intensifyOne,
    evaporatePheromone, calculateBest, calculateAvg, initTrail, updTau, initAnt,
    c6Cfg, c6Adj, c6Rng, Rng.nextInt, Rng.nextFloat, rho, qval, alpha, beta,
    List.range_succ]

/-- The accumulator of `calculateBest`'s scan is the running minimum:
after folding over `l` from seed value `v`, the first component is at
most `v`, equals `v` or some member's tour length, and is at most every
member's tour length. -/
theorem bestFoldAux (l : List ant_t) : ∀ (v : ℚ) (st : BestState),
    (l.foldl (fun st' a => if a.tourlength < st'.1
        then (a.tourlength, { besttour := some a.tour, ghostLen := a.tourlength })
        else st') (v, st)).1 ≤ v ∧
    ((l.foldl (fun st' a => if a.tourlength < st'.1
        then (a.tourlength, { besttour := some a.tour, ghostLen := a.tourlength })
        else st') (v, st)).1 = v ∨
      ∃ a ∈ l, (l.foldl (fun st' a => if a.tourlength < st'.1
        then (a.tourlength, { besttour := some a.tour, ghostLen := a.tourlength })
        else st') (v, st)).1 = a.tourlength) ∧
    ∀ a ∈ l, (l.foldl (fun st' a => if a.tourlength < st'.1
        then (a.tourlength, { besttour := some a.tour, ghostLen := a.tourlength })
        else st') (v, st)).1 ≤ a.tourlength := by
  induction l with
  | nil => intro v st; simp
  | cons a l ih =>
    intro v st
    simp only [List.foldl_cons]
    by_cases hl : a.tourlength < v
    · rw [if_pos hl]
      obtain ⟨ih1, ih2, ih3⟩ := ih a.tourlength ⟨some a.tour, a.tourlength⟩
      refine ⟨le_trans ih1 (le_of_lt hl), ?_, ?_⟩
      · rcases ih2 with h | ⟨b, hb, h⟩
        · exact Or.inr ⟨a, List.mem_cons_self a l, h⟩
        · exact Or.inr ⟨b, List.mem_cons_of_mem a hb, h⟩
      · intro b hb
        rcases List.mem_cons.mp hb with rfl | hb'
        · exact ih1
        · exact ih3 b hb'
    · rw [if_neg hl]
      obtain ⟨ih1, ih2, ih3⟩ := ih v st
      refine ⟨ih1, ?_, ?_⟩
      · rcases ih2 with h | ⟨b, hb, h⟩
        · exact Or.inl h
        · exact Or.inr ⟨b, List.mem_cons_of_mem a hb, h⟩
      · intro b hb
        rcases List.mem_cons.mp hb with rfl | hb'
        · exact le_trans ih1 (le_of_not_lt hl)
        · exact ih3 b hb'

/-- C6 (amended): the scalar `calculateBest` returns is the minimum
tour length among the round's agents (and is attained by one of them);
the experiment accumulates these per-round minima.  (The persistent
`besttour` *sequence*, by contrast, is not the global minimum — see the
counterexample.) -/
theorem c6_calculateBest_is_round_min (a0 : ant_t) (rest : List ant_t) (bs : BestState) :
    (∀ a ∈ a0 :: rest, (calculateBest (a0 :: rest) bs).1 ≤ a.tourlength) ∧
    ∃ a ∈ a0 :: rest, (calculateBest (a0 :: rest) bs).1 = a.tourlength := by
  have key : ∀ st : BestState,
      (∀ a ∈ a0 :: rest, ((a0 :: rest).foldl (fun st' a => if a.tourlength < st'.1
          then (a.tourlength, { besttour := some a.tour, ghostLen := a.tourlength })
          else st') (a0.tourlength, st)).1 ≤ a.tourlength) ∧
      ∃ a ∈ a0 :: rest, ((a0 :: rest).foldl (fun st' a => if a.tourlength < st'.1
          then (a.tourlength, { besttour := some a.tour, ghostLen := a.tourlength })
          else st') (a0.tourlength, st)).1 = a.tourlength := by
    intro st
    obtain ⟨h1, h2, h3⟩ := bestFoldAux (a0 :: rest) a0.tourlength st
    refine ⟨fun a ha => h3 a ha, ?_⟩
    rcases h2 with h | ⟨b, hb, h⟩
    · exact ⟨a0, List.mem_cons_self a0 rest, h⟩
    · exact ⟨b, hb, h⟩
  cases hbt : bs.besttour with
  | none =>
    have hcb : calculateBest (a0 :: rest) bs =
        (a0 :: rest).foldl (fun st' a => if a.tourlength < st'.1
          then (a.tourlength, { besttour := some a.tour, ghostLen := a.tourlength })
          else st') (a0.tourlength, ⟨some a0.tour, a0.tourlength⟩) := by
      simp [calculateBest, hbt]
    rw [hcb]; exact key _
  | some l =>
    have hcb : calculateBest (a0 :: rest) bs =
        (a0 :: rest).foldl (fun st' a => if a.tourlength < st'.1
          then (a.tourlength, { besttour := some a.tour, ghostLen := a.tourlength })
          else st') (a0.tourlength, bs) := by
      simp [calculateBest, hbt]
    rw [hcb]; exact key _

end TspAco

namespace TspAco

/-- The last element of a tour extended by one city is that city. -/
theorem getLastD_snoc (l : List ℕ) (x d : ℕ) : (l ++ [x]).getLastD d = x := by
  simp [List.getLastD_eq_getLast?, List.getLast?_concat]

/-- Appending one city to a nonempty tour adds exactly the edge from the
old last city to the new one to the consecutive-edge sum. -/
theorem consecSum_snoc (adj : Tau) (a : ℕ) (l : List ℕ) (x : ℕ) :
    consecSum adj ((a :: l) ++ [x]) =
      consecSum adj (a :: l) + adj ((a :: l).getLastD 0) x := by
  induction l generalizing a with
  | nil => simp [consecSum, List.getLastD_eq_getLast?]
  | cons b t ih =>
    have ih' := ih b
    simp only [List.cons_append] at ih' ⊢
    simp only [consecSum]
    rw [ih']
    have hlast : ((a :: b :: t) : List ℕ).getLastD 0 = ((b :: t) : List ℕ).getLastD 0 := by
      simp [List.getLastD_eq_getLast?, List.getLast?_cons]
    rw [hlast]
    ring

/-- Any city accepted by the selection scan is in range, unvisited, and
distinct from the current city. -/
theorem selectScan_sound (cfg : Config) (tau adj : Tau) (tabu : ℕ → ℕ) (frm : ℕ)
    (dnm : ℚ) (hN : 0 < cfg.numCities) :
    ∀ (fuel dst : ℕ) (rng : Rng) (res : ℕ × Rng), dst < cfg.numCities →
      selectScan cfg tau adj tabu frm dnm fuel dst rng = some res →
      res.1 < cfg.numCities ∧ tabu res.1 = 0 ∧ frm ≠ res.1 := by
  intro fuel
  induction fuel with
  | zero =>
    intro dst rng res _ h
    simp [selectScan] at h
  | succ n ih =>
    intro dst rng res hdst h
    simp only [selectScan] at h
    by_cases h1 : frm = dst
    · rw [if_pos h1] at h
      exact ih _ _ _ (Nat.mod_lt _ hN) h
    · rw [if_neg h1] at h
      by_cases h2 : tabu dst = 0
      · rw [if_pos h2] at h
        by_cases h3 : (rng.nextFloat).1 < desir cfg tau adj frm dst / dnm
        · rw [if_pos h3] at h
          injection h with h
          subst h
          exact ⟨hdst, h2, h1⟩
        · rw [if_neg h3] at h
          exact ih _ _ _ (Nat.mod_lt _ hN) h
      · rw [if_neg h2] at h
        exact ih _ _ _ (Nat.mod_lt _ hN) h

/-- One successful `goToNewCity` step preserves the construction
invariant, advancing the step count. -/
theorem goToNewCity_inv (cfg : Config) (tau adj : Tau) (s k : ℕ) (a : ant_t)
    (rng : Rng) (a' : ant_t) (rng' : Rng)
    (hinv : AntInv cfg.numCities adj s k a) (hk : k < cfg.numCities)
    (h : goToNewCity cfg tau adj a rng = some (a', rng')) :
    AntInv cfg.numCities adj s (k + 1) a' := by
  have hN : 0 < cfg.numCities := Nat.lt_of_le_of_lt (Nat.zero_le k) hk
  simp only [goToNewCity] at h
  cases hscan : selectScan cfg tau adj a.tabulist a.currentCity
      (denomOf cfg tau adj a.tabulist a.currentCity) cfg.fuel 0 rng with
  | none => rw [hscan] at h; exact absurd h (by simp)
  | some res =>
    obtain ⟨dst, rng2⟩ := res
    rw [hscan] at h
    simp only [Option.some.injEq, Prod.mk.injEq] at h
    obtain ⟨ha, hrng⟩ := h
    subst ha
    obtain ⟨hlt, htabu, hne⟩ := selectScan_sound cfg tau adj a.tabulist a.currentCity
      (denomOf cfg tau adj a.tabulist a.currentCity) hN cfg.fuel 0 rng (dst, rng2) hN hscan
    have hdnotmem : dst ∉ a.tour := by
      intro hmem
      have h1 := hinv.tabu_eq dst
      rw [if_pos hmem] at h1
      rw [htabu] at h1
      simp at h1
    refine ⟨?_, ?_, ?_, ?_, ?_, ?_⟩
    · simp [hinv.len_eq]
    · simp [List.nodup_append, hinv.nodup, hdnotmem]
    · intro c hc
      rcases List.mem_append.mp hc with hc | hc
      · exact hinv.mem_lt c hc
      · rw [List.mem_singleton] at hc
        subst hc
        exact hlt
    · intro c
      show (if c = dst then 1 else a.tabulist c) = _
      by_cases hcd : c = dst
      · subst hcd
        simp [List.mem_append]
      · rw [if_neg hcd, hinv.tabu_eq c]
        by_cases hct : c ∈ a.tour
        · simp [hct, List.mem_append]
        · simp [hct, List.mem_append, hcd]
    · show dst = _
      rw [getLastD_snoc]
    · show (if (a.tour ++ [dst]).length = cfg.numCities
          then a.tourlength + adj a.currentCity dst + adj dst ((a.tour ++ [dst]).headD 0)
          else a.tourlength + adj a.currentCity dst) =
        lenSpec adj s cfg.numCities (a.tour ++ [dst])
      cases htour : a.tour with
      | nil =>
        have hs : a.currentCity = s := by
          have hc := hinv.curr_eq
          rw [htour] at hc
          simpa using hc
        have htl : a.tourlength = 0 := by
          have ht := hinv.tl_eq
          rw [htour] at ht
          simpa [lenSpec] using ht
        simp only [List.nil_append, List.length_singleton, List.headD_cons, hs, htl, lenSpec,
          consecSum, List.getLastD_eq_getLast?, List.getLast?_singleton, Option.getD_some]
        split_ifs <;> ring
      | cons hh tt =>
        have hklen : ((hh :: tt) : List ℕ).length = k := by
          rw [← htour]
          exact hinv.len_eq
        have hklen' : tt.length + 1 = k := by simpa using hklen
        have hknotN : ¬(tt.length + 1 = cfg.numCities) := by omega
        have htl : a.tourlength = adj s hh + consecSum adj (hh :: tt) := by
          have ht := hinv.tl_eq
          rw [htour] at ht
          rw [ht]
          simp [lenSpec, hknotN]
        have hcur : a.currentCity = ((hh :: tt) : List ℕ).getLastD 0 := by
          have hc := hinv.curr_eq
          rw [htour] at hc
          rw [hc]
          simp [List.getLastD_eq_getLast?, List.getLast?_cons]
        have hlen1 : (((hh :: tt) : List ℕ) ++ [dst]).length = k + 1 := by
          rw [List.length_append, hklen]
          rfl
        rw [htl, hcur]
        have hsnoc := consecSum_snoc adj hh tt dst
        have hgl := getLastD_snoc ((hh :: tt) : List ℕ) dst 0
        simp only [List.cons_append] at hsnoc hgl hlen1 ⊢
        simp only [lenSpec]
        rw [hsnoc, hgl, hlen1]
        simp only [List.headD_cons]
        split_ifs <;> ring

/-- `k` successful steps preserve the construction invariant. -/
theorem antRun_inv (cfg : Config) (tau adj : Tau) (s : ℕ) :
    ∀ (k m : ℕ) (a : ant_t) (rng : Rng) (a' : ant_t) (rng' : Rng),
      AntInv cfg.numCities adj s m a → m + k ≤ cfg.numCities →
      antRun cfg tau adj k a rng = some (a', rng') →
      AntInv cfg.numCities adj s (m + k) a' := by
  intro k
  induction k with
  | zero =>
    intro m a rng a' rng' hinv _ h
    simp only [antRun, Option.some.injEq, Prod.mk.injEq] at h
    obtain ⟨rfl, -⟩ := h
    simpa using hinv
  | succ n ih =>
    intro m a rng a' rng' hinv hle h
    rw [antRun] at h
    cases hg : goToNewCity cfg tau adj a rng with
    | none => rw [hg] at h; exact absurd h (by simp)
    | some p =>
      obtain ⟨a1, rng1⟩ := p
      rw [hg] at h
      have hm : m < cfg.numCities := by omega
      have hinv1 := goToNewCity_inv cfg tau adj s m a rng a1 rng1 hinv hm hg
      have hres := ih (m + 1) a1 rng1 a' rng' hinv1 (by omega) h
      have heq : m + (n + 1) = (m + 1) + n := by omega
      rw [heq]
      exact hres

/-- A freshly initialised ant satisfies the invariant at step 0. -/
theorem initAnt_inv (n : ℕ) (adj : Tau) (s : ℕ) : AntInv n adj s 0 (initAnt s) := by
  refine ⟨rfl, ?_, ?_, ?_, rfl, rfl⟩
  · simp [initAnt]
  · simp [initAnt]
  · intro c
    simp [initAnt]

end TspAco

namespace TspAco

/-- C9: any completed tour (all `numCities` construction steps
succeeded) of an ant started by `initAnts` visits every city index
exactly once: the tour is a permutation of `0..numCities-1`. -/
theorem c9_tour_is_permutation (cfg : Config) (tau adj : Tau) (s : ℕ) (rng : Rng)
    (t : List ℕ) (len : ℚ)
    (h : (antRun cfg tau adj cfg.numCities (initAnt s) rng).map
        (fun p => (p.1.tour, p.1.tourlength)) = some (t, len)) :
    List.Perm t (List.range cfg.numCities) := by
  cases hrun : antRun cfg tau adj cfg.numCities (initAnt s) rng with
  | none => rw [hrun] at h; simp at h
  | some p =>
    obtain ⟨pa, pr⟩ := p
    rw [hrun] at h
    simp only [Option.map_some', Option.some.injEq, Prod.mk.injEq] at h
    obtain ⟨rfl, -⟩ := h
    have hinv := antRun_inv cfg tau adj s cfg.numCities 0 (initAnt s) rng pa pr
      (initAnt_inv cfg.numCities adj s) (by omega) hrun
    rw [Nat.zero_add] at hinv
    have hsub : pa.tour ⊆ List.range cfg.numCities := fun c hc =>
      List.mem_range.mpr (hinv.mem_lt c hc)
    have hsp : List.Subperm pa.tour (List.range cfg.numCities) :=
      List.subperm_of_subset hinv.nodup hsub
    exact hsp.perm_of_length_le (by simp [hinv.len_eq])

/-- C9 witness: the concrete completed two-city tour [1,0] is a
permutation of `0..1`. -/
theorem c9_witness : List.Perm [1, 0] (List.range c1Cfg.numCities) :=
  c9_tour_is_permutation c1Cfg (initTrail 2) c1Adj 0 c1Rng [1, 0] 3
    (by norm_num [antRun, goToNewCity, selectScan, denomOf, desir, initTrail, initAnt,
      c1Cfg, c1Adj, c1Rng, Rng.nextFloat, rho, qval, alpha, beta, List.range_succ])

/-- C3 (amended): the accumulated length of any completed tour equals
the edge from the agent's random start city to the first tour entry,
plus the sum of consecutive edge costs of the tour sequence, plus the
closing edge from the last tour entry back to the first.  (The start
city is not recorded as the tour's first entry, so this start edge is in
addition to the closing edge the claim describes.) -/
theorem c3_tourlength_includes_start_edge (cfg : Config) (tau adj : Tau) (s : ℕ)
    (rng : Rng) (t : List ℕ) (len : ℚ) (hn : 1 ≤ cfg.numCities)
    (h : (antRun cfg tau adj cfg.numCities (initAnt s) rng).map
        (fun p => (p.1.tour, p.1.tourlength)) = some (t, len)) :
    len = adj s (t.headD 0) + consecSum adj t + adj (t.getLastD 0) (t.headD 0) := by
  cases hrun : antRun cfg tau adj cfg.numCities (initAnt s) rng with
  | none => rw [hrun] at h; simp at h
  | some p =>
    obtain ⟨pa, pr⟩ := p
    rw [hrun] at h
    simp only [Option.map_some', Option.some.injEq, Prod.mk.injEq] at h
    obtain ⟨rfl, rfl⟩ := h
    have hinv := antRun_inv cfg tau adj s cfg.numCities 0 (initAnt s) rng pa pr
      (initAnt_inv cfg.numCities adj s) (by omega) hrun
    rw [Nat.zero_add] at hinv
    have htl := hinv.tl_eq
    cases htour : pa.tour with
    | nil =>
      have hlen0 := hinv.len_eq
      rw [htour] at hlen0
      simp at hlen0
      omega
    | cons hh tt =>
      have hlenN : ((hh :: tt) : List ℕ).length = cfg.numCities := by
        rw [← htour]
        exact hinv.len_eq
      rw [htour] at htl
      rw [htl]
      simp [lenSpec, hlenN]

/-- C3 witness: the amended accounting at the concrete two-city run —
the constructed tour [1,0] of length 3 satisfies
3 = adj(start,1) + adj(1,0) + adj(0,1). -/
theorem c3_witness :
    (3 : ℚ) = c1Adj 0 (([1, 0] : List ℕ).headD 0) + consecSum c1Adj [1, 0] +
      c1Adj (([1, 0] : List ℕ).getLastD 0) (([1, 0] : List ℕ).headD 0) :=
  c3_tourlength_includes_start_edge c1Cfg (initTrail 2) c1Adj 0 c1Rng [1, 0] 3
    (by norm_num [c1Cfg])
    (by norm_num [antRun, goToNewCity, selectScan, denomOf, desir, initTrail, initAnt,
      c1Cfg, c1Adj, c1Rng, Rng.nextFloat, rho, qval, alpha, beta, List.range_succ])

end TspAco

namespace TspAco

/-- The fresh pheromone store satisfies the positivity invariant. -/
theorem initTrail_pherInv (n : ℕ) : PherInv n (initTrail n) := by
  intro i j hi hj
  unfold initTrail
  simp only [hi, hj, and_self, if_true]
  constructor
  · by_cases hij : i = j <;> simp [hij]
  · intro hij
    simp [hij]

/-- Evaporation with `0 ≤ rho < 1` preserves the positivity invariant. -/
theorem evaporate_pherInv (n : ℕ) (r : ℚ) (tau : Tau) (h0 : 0 ≤ r) (h1 : r < 1)
    (h : PherInv n tau) : PherInv n (evaporatePheromone n r tau) := by
  intro i j hi hj
  obtain ⟨hge, hpos⟩ := h i j hi hj
  unfold evaporatePheromone
  simp only [hi, hj, and_self, if_true]
  by_cases hv : tau i j * (1 - r) < 0
  · rw [if_pos hv]
    exact ⟨by norm_num, fun _ => by norm_num⟩
  · rw [if_neg hv]
    refine ⟨le_of_not_lt hv, fun hij => ?_⟩
    have hr : 0 < 1 - r := by linarith
    exact mul_pos (hpos hij) hr

/-- The paired symmetric write of the intensification loop preserves
the positivity invariant when the added amount is nonnegative. -/
theorem updPair_pherInv (n : ℕ) (tau : Tau) (d : ℚ) (hd : 0 ≤ d) (h : PherInv n tau)
    (f t : ℕ) :
    PherInv n (updTau (updTau tau f t (tau f t + d)) t f
      ((updTau tau f t (tau f t + d)) f t)) := by
  intro i j hi hj
  by_cases h2 : i = t ∧ j = f
  · obtain ⟨rfl, rfl⟩ := h2
    obtain ⟨hge, hpos⟩ := h j i hj hi
    simp only [updTau, and_self, if_true]
    refine ⟨by linarith, fun hij => ?_⟩
    have hp := hpos (Ne.symm hij)
    linarith
  · by_cases h3 : i = f ∧ j = t
    · obtain ⟨rfl, rfl⟩ := h3
      have hij : i ≠ j := fun heq => h2 ⟨heq, heq.symm⟩
      obtain ⟨hge, hpos⟩ := h i j hi hj
      have hp := hpos hij
      have hc1 : ¬(i = j ∧ j = i) := fun hc => hij hc.1
      simp only [updTau, and_self, if_true, hc1, if_false]
      refine ⟨by linarith, fun _ => by linarith⟩
    · simp only [updTau, h2, h3, if_false]
      exact h i j hi hj

/-- The intensification inner loop over any index list preserves the
positivity invariant when the deposited amount is nonnegative. -/
theorem intensifyOne_pherInv (cfg : Config) (a : ant_t)
    (hd : 0 ≤ cfg.qval / a.tourlength) (tau : Tau)
    (h : PherInv cfg.numCities tau) :
    PherInv cfg.numCities (intensifyOne cfg tau a) := by
  unfold intensifyOne
  generalize List.range cfg.numCities = l
  induction l generalizing tau with
  | nil => exact h
  | cons c l ih =>
    simp only [List.foldl_cons]
    exact ih _ (updPair_pherInv cfg.numCities tau (cfg.qval / a.tourlength) hd h
      (a.tour.getD c 0) (a.tour.getD ((c + 1) % cfg.numCities) 0))

/-- Intensifying over any ant population with nonnegative tour lengths
preserves the positivity invariant. -/
theorem intensifyTrail_pherInv (cfg : Config) (hq : 0 ≤ cfg.qval) :
    ∀ (ants : List ant_t), (∀ a ∈ ants, 0 ≤ a.tourlength) →
      ∀ (tau : Tau), PherInv cfg.numCities tau →
        PherInv cfg.numCities (intensifyTrail cfg tau ants) := by
  intro ants
  induction ants with
  | nil => intro _ tau h; exact h
  | cons a l ih =>
    intro hlen tau h
    simp only [intensifyTrail, List.foldl_cons]
    have ha : 0 ≤ a.tourlength := hlen a (List.mem_cons_self a l)
    have h1 : PherInv cfg.numCities (intensifyOne cfg tau a) :=
      intensifyOne_pherInv cfg a (div_nonneg hq ha) tau h
    exact ih (fun b hb => hlen b (List.mem_cons_of_mem a hb)) _ h1

/-- C8: after any finite sequence of evaporate and intensify calls
starting from an initialised pheromone store — with the evaporation
rate in the spec's valid range `[0,1)`, a nonnegative deposit constant,
and nonnegative tour lengths — every in-range entry of the pheromone
matrix is nonnegative and every in-range off-diagonal entry is strictly
positive. -/
theorem c8_pheromone_entries_positive (cfg : Config) (ops : List PherOp)
    (h0 : 0 ≤ cfg.rho) (h1 : cfg.rho < 1) (hq : 0 ≤ cfg.qval)
    (hlen : ∀ op ∈ ops, ∀ a ∈ opAnts op, 0 ≤ a.tourlength) :
    PherInv cfg.numCities (applyOps cfg ops (initTrail cfg.numCities)) := by
  have base := initTrail_pherInv cfg.numCities
  unfold applyOps
  generalize hgen : initTrail cfg.numCities = tau0 at base
  clear hgen
  induction ops generalizing tau0 with
  | nil => exact base
  | cons op l ih =>
    simp only [List.foldl_cons]
    have hop : PherInv cfg.numCities (applyOp cfg tau0 op) := by
      cases op with
      | evap => exact evaporate_pherInv cfg.numCities cfg.rho tau0 h0 h1 base
      | intens ants =>
        exact intensifyTrail_pherInv cfg hq ants
          (hlen (PherOp.intens ants) (List.mem_cons_self _ l)) tau0 base
    exact ih (fun o ho a ha => hlen o (List.mem_cons_of_mem op ho) a ha) _ hop

/-- C8 witness: with the source configuration (rho = 0.6, q = 1.0) over
two cities, after one evaporation and one intensification by a
completed ant of tour length 2, the off-diagonal entry (0,1) is
strictly positive. -/
theorem c8_witness :
    0 < applyOps (defaultConfig 2 (fun x _ => x) 10)
        [PherOp.evap, PherOp.intens [c8Ant]] (initTrail 2) 0 1 :=
  (c8_pheromone_entries_positive (defaultConfig 2 (fun x _ => x) 10)
    [PherOp.evap, PherOp.intens [c8Ant]]
    (by norm_num [defaultConfig, rho])
    (by norm_num [defaultConfig, rho])
    (by norm_num [defaultConfig, qval])
    (by
      intro op hop a ha
      rcases List.mem_cons.mp hop with rfl | hop'
      · simp [opAnts] at ha
      · rcases List.mem_cons.mp hop' with rfl | hop''
        · simp only [opAnts, List.mem_singleton] at ha
          subst ha
          norm_num [c8Ant]
        · simp at hop'')
    0 1 (by norm_num [defaultConfig]) (by norm_num [defaultConfig])).2 (by norm_num)

end TspAco
